import Mathlib

/-!
Shallow embedding of the coin-game server (`src/server/game.js` together with
its utility module providing `clamp`, `randomPoint`, `permutation`,
`scanValues`), and proofs about its registration, movement, coin-placement and
snapshot behaviour.

Modelling conventions:
- The redis store is modelled by explicit association lists inside a
  `GameState` record: the `player:<name>` string keys (value: position plus
  absolute expiry time, from `setex key 300 value`), the `usednames` set, the
  `scores` sorted set (member, score) and the `coins` hash (cell, value).
- Randomness (`randomPoint`, `permutation`) is passed in as a parameter.
- Time is an explicit `now : Nat` argument; a `setex`-written key is live
  while `now < expiry` and reads as absent (redis `nil`) afterwards.
- JavaScript control flow is reproduced faithfully, including its slips:
  `addPlayer` has no `return` after `resolve(false)`, so the mutating calls
  (`sadd`, `setex`, `zadd`) run even for a rejected name, while the promise
  keeps the first resolved value; `move` on a missing player key calls
  `null.split(',')`, which throws; the regeneration check reads
  `coinList.length` where `coinList` is the object returned by `hgetall`
  (no `length` property, so the `=== 0` test is false) or `null` when the
  hash is empty (node_redis returns `null` for an empty hash, so the property
  access throws).
- A promise settles at most once; `Outcome` records whether the `move`
  promise resolved, is forever pending (no `resolve`/`reject` reachable), or
  an exception escaped a callback (the promise again never settles).
-/

def WIDTH : Nat := 64
def HEIGHT : Nat := 64
def MAX_PLAYER_NAME_LENGTH : Nat := 32
def NUM_COINS : Nat := 100

/-- `clamp(value, low, high) = Math.max(low, Math.min(high, value))` from the
utility module. -/
def clamp (value low high : Int) : Int := max low (min high value)

/-- A board cell, written `"row,col"` (or `"x,y"`) in the redis keys; the
string encoding of a pair of naturals is injective, so we keep the pair. -/
abbrev Cell := Nat × Nat

/-- Redis `hset`/`zadd`-style update on an association list (the lists model
redis hashes/sorted sets, so keys are unique): overwrite the value at the key
when present, otherwise append the new entry. -/
def rset {κ α : Type} [DecidableEq κ] : List (κ × α) → κ → α → List (κ × α)
  | [], k, v => [(k, v)]
  | e :: rest, k, v =>
      if e.1 = k then (k, v) :: rest else e :: rset rest k v

/-- Redis `hget`/`get`-style lookup on an association list. -/
def rget {κ α : Type} [DecidableEq κ] : List (κ × α) → κ → Option α
  | [], _ => none
  | e :: rest, k => if e.1 = k then some e.2 else rget rest k

/-- Redis `hdel`-style removal on an association list. -/
def rdel {κ α : Type} [DecidableEq κ] : List (κ × α) → κ → List (κ × α)
  | [], _ => []
  | e :: rest, k => if e.1 = k then rdel rest k else e :: rdel rest k

/-- Redis `zincrby`: add `v` to the member's score, inserting the member with
score `v` when absent. -/
def zincrby : List (String × Int) → String → Int → List (String × Int)
  | [], name, v => [(name, v)]
  | e :: rest, name, v =>
      if e.1 = name then (e.1, e.2 + v) :: rest else e :: zincrby rest name v

/-- Redis `sadd` on a set represented as a duplicate-free list. -/
def sadd (l : List String) (x : String) : List String :=
  if x ∈ l then l else l ++ [x]

/-- The whole redis-backed game state of `game.js`. -/
structure GameState where
  players : List (String × (Cell × Nat))
  usednames : List String
  scores : List (String × Int)
  coins : List (Cell × Nat)
deriving DecidableEq

def GameState.empty : GameState := ⟨[], [], [], []⟩

/-- `client.get('player:' + name)` at time `now`: the stored position while
the `setex` expiry has not elapsed, redis `nil` afterwards or when the key
was never written. -/
def getLive (l : List (String × (Cell × Nat))) (now : Nat) (name : String) :
    Option Cell :=
  match rget l name with
  | some e => if now < e.2 then some e.1 else none
  | none => none

/-- A player's leaderboard score, reading an absent member as 0. -/
def getScore (l : List (String × Int)) (name : String) : Int :=
  match rget l name with
  | some v => v
  | none => 0

/-- `addPlayer(name)` from `game.js`, with the random starting point `pt`
passed in. The source resolves `false` on an empty, over-long or
already-used name but does not `return`, so `sadd`/`setex`/`zadd` run in
every case; the promise keeps the first resolved value. -/
def addPlayer (s : GameState) (now : Nat) (name : String) (pt : Cell) :
    Bool × GameState :=
  let isMember := name ∈ s.usednames
  let accepted : Bool :=
    if name.length = 0 ∨ MAX_PLAYER_NAME_LENGTH < name.length ∨ isMember then
      false
    else true
  (accepted,
   { s with
      usednames := sadd s.usednames name
      players := rset s.players name (pt, now + 300)
      scores := rset s.scores name 0 })

/-- The coin value assigned to slot `i` of the truncated permutation:
`(i < 50) ? 1 : (i < 75) ? 2 : (i < 95) ? 5 : 10`. -/
def coinValueForSlot (i : Nat) : Nat :=
  if i < 50 then 1 else if i < 75 then 2 else if i < 95 then 5 else 10

/-- The cell string written for linear index `idx`:
`Math.floor(idx / WIDTH) + "," + Math.floor(idx % WIDTH)`. -/
def cellOfIndex (idx : Nat) : Cell := (idx / WIDTH, idx % WIDTH)

/-- `placeCoins()` from `game.js`, with the random permutation of
`[0, WIDTH*HEIGHT)` passed in: `hset` each of the first `NUM_COINS` indices
into the existing `coins` hash. -/
def placeCoins (perm : List Nat) (coins : List (Cell × Nat)) :
    List (Cell × Nat) :=
  ((perm.take NUM_COINS).enum).foldl
    (fun cs e => rset cs (cellOfIndex e.2) (coinValueForSlot e.1)) coins

/-- How the `move` promise ends up: `resolved` when `resolve()` runs,
`pending` when no `resolve`/`reject` is ever reachable, `thrown` when an
exception escapes a store callback (the promise also never settles then). -/
inductive Outcome
  | resolved
  | pending
  | thrown
deriving DecidableEq

/-- The direction table `{ U: [0,-1], R: [1,0], D: [0,1], L: [-1,0] }[direction]`. -/
def delta (dir : String) : Option (Int × Int) :=
  if dir = "U" then some (0, -1)
  else if dir = "R" then some (1, 0)
  else if dir = "D" then some (0, 1)
  else if dir = "L" then some (-1, 0)
  else none

/-- `move(direction, name)` from `game.js`. An unknown direction skips the
whole body, leaving the promise pending. A missing/expired player key makes
`playerPosition.split(',')` throw on `null`. Otherwise the new position is
the clamped old position plus the delta; a coin at the new cell is claimed
(`zincrby` the player's score, `hdel` the coin) and the position is rewritten
with a fresh 300-second expiry. The closing callback reads the coins hash
back: `null` (empty hash) makes `coinList.length` throw, and a non-empty
hash object has no `length`, so `coinList.length === 0` is false and
`placeCoins` is never invoked.

`newPos` is the destination computed inside `move`:
`[clamp(+x + delta[0], 0, WIDTH - 1), clamp(+y + delta[1], 0, HEIGHT - 1)]`. -/
def newPos (p : Cell) (d : Int × Int) : Cell :=
  ((clamp ((p.1 : Int) + d.1) 0 ((WIDTH : Int) - 1)).toNat,
   (clamp ((p.2 : Int) + d.2) 0 ((HEIGHT : Int) - 1)).toNat)

def move (s : GameState) (now : Nat) (dir name : String) :
    Outcome × GameState :=
  match delta dir with
  | none => (Outcome.pending, s)
  | some d =>
    match getLive s.players now name with
    | none => (Outcome.thrown, s)
    | some p =>
      let np := newPos p d
      let claimed := rget s.coins np
      let scores1 := match claimed with
        | some v => zincrby s.scores name (v : Int)
        | none => s.scores
      let coins1 := match claimed with
        | some _ => rdel s.coins np
        | none => s.coins
      let players1 := rset s.players name (np, now + 300)
      let out := if coins1.isEmpty then Outcome.thrown else Outcome.resolved
      (out, { s with players := players1, scores := scores1, coins := coins1 })

/-- The `positions` part of `state()`: `scanValues('player:*')` sees only the
keys whose expiry has not elapsed, and strips the `player:` prefix. -/
def statePositions (s : GameState) (now : Nat) : List (String × Cell) :=
  (s.players.filter (fun e => now < e.2.2)).map (fun e => (e.1, e.2.1))

/-- Descending insertion used to model `zrevrange 'scores' 0 -1 WITHSCORES`. -/
def insertDesc (e : String × Int) : List (String × Int) → List (String × Int)
  | [] => [e]
  | f :: rest => if f.2 ≤ e.2 then e :: f :: rest else f :: insertDesc e rest

/-- The `scores` part of `state()`: every member of the `scores` sorted set,
in descending score order. -/
def stateScores (s : GameState) : List (String × Int) :=
  s.scores.foldr insertDesc []

/-- The `coins` part of `state()`: the full coins hash. -/
def stateCoins (s : GameState) : List (Cell × Nat) := s.coins

/-- The names `state().positions` reports at time `now`: the currently
registered (non-expired) players. -/
def registeredNames (s : GameState) (now : Nat) : List String :=
  (statePositions s now).map (fun e => e.1)

/-- The names `state().scores` reports: every member of the leaderboard. -/
def leaderboardNames (s : GameState) : List String :=
  (stateScores s).map (fun e => e.1)

/-- One external intent hitting the engine, with its randomness. `regen`
covers the `placeCoins()` call at module load and any later invocation. -/
inductive Intent
  | addP (name : String) (pt : Cell)
  | mv (dir name : String)
  | regen (perm : List Nat)

/-- Apply one intent at time `t`. -/
def step (s : GameState) (t : Nat) : Intent → GameState
  | Intent.addP n pt => (addPlayer s t n pt).2
  | Intent.mv d n => (move s t d n).2
  | Intent.regen p => { s with coins := placeCoins p s.coins }

/-- Run a chronological trace of timestamped intents from the empty store. -/
def run (tr : List (Nat × Intent)) : GameState :=
  tr.foldl (fun s ta => step s ta.1 ta.2) GameState.empty

/-- The `(cell, value)` writes `placeCoins` performs, in order: slot `i` of
the truncated permutation is written at `cellOfIndex` of the drawn index with
the tier value of `i`. -/
def coinInsertions (perm : List Nat) : List (Cell × Nat) :=
  ((perm.take NUM_COINS).enum).map
    (fun e => (cellOfIndex e.2, coinValueForSlot e.1))

/-- Registered player keys are always a subset of the leaderboard members:
the invariant that actually holds of the store (the two sets are not equal,
because expiry never removes leaderboard entries). -/
def PlayersSubsetScores (s : GameState) : Prop :=
  ∀ n, n ∈ s.players.map (fun e => e.1) → n ∈ s.scores.map (fun e => e.1)

/-- A concrete store: "alice" registered at `(10,10)` until time 301, two
coins on the board, one of value 5 at `(10,9)`. -/
def sampleState : GameState :=
  { players := [("alice", ((10, 10), 301))]
    usednames := ["alice"]
    scores := [("alice", 0)]
    coins := [((10, 9), 5), ((0, 0), 1)] }

/-- A concrete store: "bob" was registered but his key expired at time 300. -/
def expiredState : GameState :=
  { players := [("bob", ((3, 3), 300))]
    usednames := ["bob"]
    scores := [("bob", 2)]
    coins := [((0, 0), 1)] }

/-- A concrete store: "alice" registered with score 7, name in use. -/
def takenState : GameState :=
  { players := [("alice", ((10, 10), 300))]
    usednames := ["alice"]
    scores := [("alice", 7)]
    coins := [] }

/-- A concrete store: exactly one coin left, value 5 at `(10,9)`, with
"alice" registered next to it at `(10,10)`. -/
def lastCoinState : GameState :=
  { players := [("alice", ((10, 10), 300))]
    usednames := ["alice"]
    scores := [("alice", 0)]
    coins := [((10, 9), 5)] }

/-! ### Basic facts about the store primitives -/

theorem rget_rset_self {κ α : Type} [DecidableEq κ]
    (l : List (κ × α)) (k : κ) (v : α) : rget (rset l k v) k = some v := by
  induction l with
  | nil => simp [rset, rget]
  | cons e rest ih =>
    by_cases he : e.1 = k
    · simp [rset, rget, he]
    · simp [rset, rget, he, ih]

theorem rget_rset_ne {κ α : Type} [DecidableEq κ]
    (l : List (κ × α)) (k k' : κ) (v : α) (h : k' ≠ k) :
    rget (rset l k v) k' = rget l k' := by
  induction l with
  | nil => simp [rset, rget, Ne.symm h]
  | cons e rest ih =>
    by_cases he : e.1 = k
    · simp [rset, rget, he, Ne.symm h]
    · simp [rset, rget, he, ih]

theorem rget_rdel_self {κ α : Type} [DecidableEq κ]
    (l : List (κ × α)) (k : κ) : rget (rdel l k) k = none := by
  induction l with
  | nil => simp [rdel, rget]
  | cons e rest ih =>
    by_cases he : e.1 = k
    · simp [rdel, he, ih]
    · simp [rdel, rget, he, ih]

theorem rget_rdel_ne {κ α : Type} [DecidableEq κ]
    (l : List (κ × α)) (k k' : κ) (h : k' ≠ k) :
    rget (rdel l k) k' = rget l k' := by
  induction l with
  | nil => simp [rdel]
  | cons e rest ih =>
    by_cases he : e.1 = k
    · simp [rdel, rget, he, Ne.symm h, ih]
    · simp [rdel, rget, he, ih]

theorem getScore_cons (e : String × Int) (rest : List (String × Int))
    (n : String) :
    getScore (e :: rest) n = if e.1 = n then e.2 else getScore rest n := by
  by_cases he : e.1 = n <;> simp [getScore, rget, he]

theorem getScore_zincrby_self (l : List (String × Int)) (n : String) (v : Int) :
    getScore (zincrby l n v) n = getScore l n + v := by
  induction l with
  | nil => simp [zincrby, getScore, rget]
  | cons e rest ih =>
    by_cases he : e.1 = n
    · simp [zincrby, he, getScore_cons]
    · simp [zincrby, he, getScore_cons, ih]

theorem getScore_zincrby_ne (l : List (String × Int)) (n m : String) (v : Int)
    (h : m ≠ n) : getScore (zincrby l n v) m = getScore l m := by
  induction l with
  | nil => simp [zincrby, getScore, rget, Ne.symm h]
  | cons e rest ih =>
    by_cases he : e.1 = n
    · simp [zincrby, he, getScore_cons, Ne.symm h]
    · simp [zincrby, he, getScore_cons, ih]

theorem rset_of_not_mem_keys {κ α : Type} [DecidableEq κ]
    (l : List (κ × α)) (k : κ) (v : α) (h : k ∉ l.map (fun e => e.1)) :
    rset l k v = l ++ [(k, v)] := by
  induction l with
  | nil => simp [rset]
  | cons e rest ih =>
    simp only [List.map_cons, List.mem_cons] at h
    push_neg at h
    simp [rset, Ne.symm h.1, ih h.2]

theorem mem_keys_rset {κ α : Type} [DecidableEq κ]
    (l : List (κ × α)) (k a : κ) (v : α) :
    a ∈ (rset l k v).map (fun e => e.1) ↔ a = k ∨ a ∈ l.map (fun e => e.1) := by
  induction l with
  | nil => simp [rset]
  | cons e rest ih =>
    by_cases he : e.1 = k
    · simp [rset, he]
    · simp [rset, he, ih]
      tauto

theorem mem_keys_zincrby (l : List (String × Int)) (n a : String) (v : Int)
    (h : a ∈ l.map (fun e => e.1)) :
    a ∈ (zincrby l n v).map (fun e => e.1) := by
  induction l with
  | nil => simp at h
  | cons e rest ih =>
    by_cases he : e.1 = n
    · simp only [List.map_cons, List.mem_cons] at h
      rcases h with h | h
      · simp [zincrby, he, h]
      · simp [zincrby, he, h]
    · simp only [List.map_cons, List.mem_cons] at h
      rcases h with h | h
      · simp [zincrby, he, h]
      · simp [zincrby, he, ih h]

theorem rget_some_mem_keys {κ α : Type} [DecidableEq κ]
    (l : List (κ × α)) (k : κ) (v : α) (h : rget l k = some v) :
    k ∈ l.map (fun e => e.1) := by
  induction l with
  | nil => simp [rget] at h
  | cons e rest ih =>
    by_cases he : e.1 = k
    · simp [he]
    · simp only [rget, he, if_false] at h
      simp [ih h]

theorem getLive_some_mem_keys (l : List (String × (Cell × Nat))) (now : Nat)
    (n : String) (p : Cell) (h : getLive l now n = some p) :
    n ∈ l.map (fun e => e.1) := by
  unfold getLive at h
  cases hg : rget l n with
  | none => rw [hg] at h; exact absurd h (by simp)
  | some e => exact rget_some_mem_keys l n e hg

theorem mem_insertDesc (e f : String × Int) (l : List (String × Int)) :
    f ∈ insertDesc e l ↔ f = e ∨ f ∈ l := by
  induction l with
  | nil => simp [insertDesc]
  | cons g rest ih =>
    by_cases hle : g.2 ≤ e.2
    · simp [insertDesc, hle]
    · simp [insertDesc, hle, ih]
      tauto

theorem mem_stateScores (s : GameState) (f : String × Int) :
    f ∈ stateScores s ↔ f ∈ s.scores := by
  unfold stateScores
  induction s.scores with
  | nil => simp
  | cons e rest ih =>
    simp [List.foldr_cons, mem_insertDesc, ih]

theorem mem_leaderboardNames (s : GameState) (a : String) :
    a ∈ leaderboardNames s ↔ a ∈ s.scores.map (fun e => e.1) := by
  unfold leaderboardNames
  constructor
  · intro h
    rcases List.mem_map.1 h with ⟨f, hf, hfa⟩
    exact List.mem_map.2 ⟨f, (mem_stateScores s f).1 hf, hfa⟩
  · intro h
    rcases List.mem_map.1 h with ⟨f, hf, hfa⟩
    exact List.mem_map.2 ⟨f, (mem_stateScores s f).2 hf, hfa⟩

/-! ### Shape lemmas for `move` -/

theorem move_unknown_dir (s : GameState) (now : Nat) (dir name : String)
    (h : delta dir = none) : move s now dir name = (Outcome.pending, s) := by
  simp [move, h]

theorem move_unregistered (s : GameState) (now : Nat) (dir name : String)
    (d : Int × Int) (hd : delta dir = some d)
    (hp : getLive s.players now name = none) :
    move s now dir name = (Outcome.thrown, s) := by
  simp [move, hd, hp]

theorem move_coin_state (s : GameState) (now : Nat) (dir name : String)
    (d : Int × Int) (p : Cell) (v : Nat) (hd : delta dir = some d)
    (hp : getLive s.players now name = some p)
    (hv : rget s.coins (newPos p d) = some v) :
    (move s now dir name).2 =
      { s with
          players := rset s.players name (newPos p d, now + 300)
          scores := zincrby s.scores name (v : Int)
          coins := rdel s.coins (newPos p d) } := by
  simp [move, hd, hp, hv]

theorem move_nocoin_state (s : GameState) (now : Nat) (dir name : String)
    (d : Int × Int) (p : Cell) (hd : delta dir = some d)
    (hp : getLive s.players now name = some p)
    (hv : rget s.coins (newPos p d) = none) :
    (move s now dir name).2 =
      { s with players := rset s.players name (newPos p d, now + 300) } := by
  simp [move, hd, hp, hv]

theorem delta_eq_none (dir : String)
    (h : dir ∉ (["U", "R", "D", "L"] : List String)) : delta dir = none := by
  simp only [List.mem_cons, List.not_mem_nil, or_false, not_or] at h
  simp [delta, h.1, h.2.1, h.2.2.1, h.2.2.2]

theorem width_sub_one : (WIDTH : Int) - 1 = 63 := by norm_num [WIDTH]

theorem height_sub_one : (HEIGHT : Int) - 1 = 63 := by norm_num [HEIGHT]

theorem newPos_eq (p : Cell) (d : Int × Int) :
    newPos p d = ((clamp ((p.1 : Int) + d.1) 0 63).toNat,
                  (clamp ((p.2 : Int) + d.2) 0 63).toNat) := by
  simp [newPos, width_sub_one, height_sub_one]

theorem clamp_nonneg (v : Int) : 0 ≤ clamp v 0 63 := le_max_left 0 _

theorem clamp_toNat_coe (v : Int) :
    ((clamp v 0 63).toNat : Int) = clamp v 0 63 :=
  Int.toNat_of_nonneg (clamp_nonneg v)

/-! ### The claims -/

/-- C1: for every registered player, moving onto a cell holding a coin
increases exactly that player's leaderboard score by the coin's value and
removes the coin (all other coins untouched); moving onto an empty cell
leaves every leaderboard score and the entire coin set unchanged. -/
theorem move_coin_collection (s : GameState) (now : Nat) (dir name : String)
    (d : Int × Int) (p : Cell) (hd : delta dir = some d)
    (hp : getLive s.players now name = some p) :
    (∀ v : Nat, rget s.coins (newPos p d) = some v →
      getScore (move s now dir name).2.scores name
          = getScore s.scores name + (v : Int) ∧
      (∀ m, m ≠ name →
        getScore (move s now dir name).2.scores m = getScore s.scores m) ∧
      rget (move s now dir name).2.coins (newPos p d) = none ∧
      (∀ c, c ≠ newPos p d →
        rget (move s now dir name).2.coins c = rget s.coins c)) ∧
    (rget s.coins (newPos p d) = none →
      (move s now dir name).2.scores = s.scores ∧
      (move s now dir name).2.coins = s.coins) := by
  constructor
  · intro v hv
    rw [move_coin_state s now dir name d p v hd hp hv]
    exact ⟨getScore_zincrby_self s.scores name (v : Int),
           fun m hm => getScore_zincrby_ne s.scores name m (v : Int) hm,
           rget_rdel_self s.coins (newPos p d),
           fun c hc => rget_rdel_ne s.coins (newPos p d) c hc⟩
  · intro hv
    rw [move_nocoin_state s now dir name d p hd hp hv]
    exact ⟨rfl, rfl⟩

theorem move_coin_collection_witness :
    delta "U" = some (0, -1) ∧
    getLive sampleState.players 0 "alice" = some (10, 10) ∧
    rget sampleState.coins (newPos (10, 10) (0, -1)) = some 5 ∧
    getScore (move sampleState 0 "U" "alice").2.scores "alice"
      = getScore sampleState.scores "alice" + (5 : Int) ∧
    rget (move sampleState 0 "U" "alice").2.coins (newPos (10, 10) (0, -1))
      = none :=
  have h := move_coin_collection sampleState 0 "U" "alice" (0, -1) (10, 10)
    (by decide) (by decide)
  ⟨by decide, by decide, by decide,
   (h.1 5 (by decide)).1, (h.1 5 (by decide)).2.2.1⟩

/-- C2: a move of a registered player at `(x,y)` in direction `d` with delta
`(dx,dy)` given by U=(0,-1), R=(1,0), D=(0,1), L=(-1,0) stores exactly the
position `(clamp(x+dx,0,63), clamp(y+dy,0,63))`, each axis clamped
independently, with `clamp(v,low,high) = max(low, min(high, v))`. -/
theorem move_clamped_position (s : GameState) (now : Nat) (dir name : String)
    (dx dy : Int) (x y : Nat) (hd : delta dir = some (dx, dy))
    (hp : getLive s.players now name = some (x, y)) :
    (delta "U" = some (0, -1) ∧ delta "R" = some (1, 0) ∧
     delta "D" = some (0, 1) ∧ delta "L" = some (-1, 0)) ∧
    (∀ v low high : Int, clamp v low high = max low (min high v)) ∧
    rget (move s now dir name).2.players name =
      some (((clamp ((x : Int) + dx) 0 63).toNat,
             (clamp ((y : Int) + dy) 0 63).toNat), now + 300) ∧
    ((clamp ((x : Int) + dx) 0 63).toNat : Int) = clamp ((x : Int) + dx) 0 63 ∧
    ((clamp ((y : Int) + dy) 0 63).toNat : Int) = clamp ((y : Int) + dy) 0 63 := by
  refine ⟨⟨by decide, by decide, by decide, by decide⟩,
          fun v low high => rfl, ?_, clamp_toNat_coe _, clamp_toNat_coe _⟩
  have hnp : newPos (x, y) (dx, dy)
      = ((clamp ((x : Int) + dx) 0 63).toNat,
         (clamp ((y : Int) + dy) 0 63).toNat) := newPos_eq (x, y) (dx, dy)
  cases hv : rget s.coins (newPos (x, y) (dx, dy)) with
  | some v =>
    rw [move_coin_state s now dir name (dx, dy) (x, y) v hd hp hv]
    show rget (rset s.players name (newPos (x, y) (dx, dy), now + 300)) name
        = _
    rw [rget_rset_self, hnp]
  | none =>
    rw [move_nocoin_state s now dir name (dx, dy) (x, y) hd hp hv]
    show rget (rset s.players name (newPos (x, y) (dx, dy), now + 300)) name
        = _
    rw [rget_rset_self, hnp]

theorem move_clamped_position_witness :
    delta "U" = some (0, -1) ∧
    getLive sampleState.players 0 "alice" = some (10, 10) ∧
    rget (move sampleState 0 "U" "alice").2.players "alice" =
      some (((clamp ((10 : Int) + 0) 0 63).toNat,
             (clamp ((10 : Int) + -1) 0 63).toNat), 0 + 300) :=
  ⟨by decide, by decide,
   (move_clamped_position sampleState 0 "U" "alice" 0 (-1) 10 10
     (by decide) (by decide)).2.2.1⟩

/-- C6: `addPlayer` on a name of length 0 or of length greater than 32
always resolves `false` (the promise keeps the first resolved value). -/
theorem addPlayer_invalid_length_false (s : GameState) (now : Nat)
    (name : String) (pt : Cell)
    (h : name.length = 0 ∨ 32 < name.length) :
    (addPlayer s now name pt).1 = false := by
  rcases h with h | h <;>
    simp [addPlayer, MAX_PLAYER_NAME_LENGTH, h]

theorem addPlayer_invalid_length_false_witness :
    ("".length = 0 ∨ 32 < "".length) ∧
    (addPlayer GameState.empty 0 "" (0, 0)).1 = false :=
  ⟨Or.inl (by decide),
   addPlayer_invalid_length_false GameState.empty 0 "" (0, 0)
     (Or.inl (by decide))⟩

/-- C7 (code-bug exhibit): `move` on an expired name ("bob" at time 301) and
on a never-registered name ("ghost") does not report a NotFound failure to
the caller: `playerPosition.split(',')` throws on redis `nil` and the promise
never settles. No state is mutated. -/
theorem move_unregistered_throws_no_mutation :
    (move expiredState 301 "U" "bob").1 = Outcome.thrown ∧
    (move expiredState 301 "U" "bob").2 = expiredState ∧
    (move expiredState 301 "U" "ghost").1 = Outcome.thrown ∧
    (move expiredState 301 "U" "ghost").2 = expiredState := by decide

/-- C9 counterexample: at direction "X" the promise stays pending, so the
call never completes, contradicting "the call completes without error"
(while the state is indeed unchanged). -/
theorem move_unknown_direction_counterexample :
    (move sampleState 0 "X" "alice").2 = sampleState ∧
    (move sampleState 0 "X" "alice").1 = Outcome.pending ∧
    ¬ (move sampleState 0 "X" "alice").1 = Outcome.resolved := by decide

/-- C9 (amended): for every direction not in {U,R,D,L} and every name,
`move` changes no component of the game state and raises no error, but the
returned promise never settles (the call never completes). -/
theorem move_unknown_direction_noop (s : GameState) (now : Nat)
    (dir name : String) (h : dir ∉ (["U", "R", "D", "L"] : List String)) :
    (move s now dir name).2 = s ∧
    (move s now dir name).1 = Outcome.pending := by
  rw [move_unknown_dir s now dir name (delta_eq_none dir h)]
  exact ⟨rfl, rfl⟩

theorem move_unknown_direction_noop_witness :
    ("X" ∉ (["U", "R", "D", "L"] : List String)) ∧
    (move GameState.empty 0 "X" "bob").2 = GameState.empty ∧
    (move GameState.empty 0 "X" "bob").1 = Outcome.pending :=
  have h := move_unknown_direction_noop GameState.empty 0 "X" "bob" (by decide)
  ⟨by decide, h.1, h.2⟩

/-- C10: for every direction not in {U,R,D,L}, the promise returned by
`move` never settles: neither `resolve` nor `reject` is ever invoked, so the
caller receives no completion or error signal. -/
theorem move_unknown_direction_never_settles (s : GameState) (now : Nat)
    (dir name : String) (h : dir ∉ (["U", "R", "D", "L"] : List String)) :
    (move s now dir name).1 = Outcome.pending := by
  rw [move_unknown_dir s now dir name (delta_eq_none dir h)]

theorem move_unknown_direction_never_settles_witness :
    ("Q" ∉ (["U", "R", "D", "L"] : List String)) ∧
    (move sampleState 7 "Q" "alice").1 = Outcome.pending :=
  ⟨by decide,
   move_unknown_direction_never_settles sampleState 7 "Q" "alice" (by decide)⟩

/-- C5 (code-bug exhibit): re-registering the taken name "alice" resolves
`false` (rejection) yet mutates the store: her position and expiry are
overwritten with the fresh random point and her leaderboard score is reset
from 7 to 0, because the source lacks a `return` after `resolve(false)`. -/
theorem addPlayer_rejected_mutates :
    (addPlayer takenState 50 "alice" (3, 4)).1 = false ∧
    (addPlayer takenState 50 "alice" (3, 4)).2.players
      = [("alice", ((3, 4), 350))] ∧
    (addPlayer takenState 50 "alice" (3, 4)).2.scores = [("alice", 0)] ∧
    ¬ (addPlayer takenState 50 "alice" (3, 4)).2 = takenState := by decide

/-- C4 (code-bug exhibit): the move that collects the last coin leaves the
coin set empty and never regenerates it: `coinList.length === 0` can never
be true (`hgetall` yields an object without `length`, or `null` for the
emptied hash, on which the access throws), so `placeCoins` is not invoked
and a subsequent `state()` shows 0 coins, not 100. -/
theorem lastCoin_no_regeneration :
    (move lastCoinState 0 "U" "alice").2.coins = [] ∧
    (stateCoins (move lastCoinState 0 "U" "alice").2).length = 0 ∧
    ¬ (stateCoins (move lastCoinState 0 "U" "alice").2).length = NUM_COINS ∧
    (move lastCoinState 0 "U" "alice").1 = Outcome.thrown := by decide

/-! ### Coin placement -/

theorem foldl_rset_of_nodup_keys {κ α : Type} [DecidableEq κ]
    (ins : List (κ × α)) (acc : List (κ × α))
    (hnd : (ins.map (fun e => e.1)).Nodup)
    (hdisj : ∀ k, k ∈ ins.map (fun e => e.1) → k ∉ acc.map (fun e => e.1)) :
    ins.foldl (fun cs e => rset cs e.1 e.2) acc = acc ++ ins := by
  induction ins generalizing acc with
  | nil => simp
  | cons e rest ih =>
    have hea : e.1 ∉ acc.map (fun x => x.1) := hdisj e.1 (by simp)
    have hnd' : e.1 ∉ rest.map (fun x => x.1) ∧ (rest.map (fun x => x.1)).Nodup :=
      List.nodup_cons.1 (by simpa using hnd)
    rw [List.foldl_cons, rset_of_not_mem_keys acc e.1 e.2 hea]
    have hdisj' : ∀ k, k ∈ rest.map (fun x => x.1) →
        k ∉ (acc ++ [e]).map (fun x => x.1) := by
      intro k hk
      simp only [List.map_append, List.mem_append, List.map_cons,
        List.map_nil, List.mem_singleton, not_or]
      refine ⟨hdisj k (by simp [hk]), ?_⟩
      intro hke
      exact hnd'.1 (hke ▸ hk)
    have h2 : rest.foldl (fun cs x => rset cs x.1 x.2) (acc ++ [e])
        = (acc ++ [e]) ++ rest := ih (acc ++ [e]) hnd'.2 hdisj'
    have h3 : rset acc e.1 e.2 = acc ++ [e] := by
      rw [rset_of_not_mem_keys acc e.1 e.2 hea]
    calc rest.foldl (fun cs x => rset cs x.1 x.2) (acc ++ [(e.1, e.2)])
        = rest.foldl (fun cs x => rset cs x.1 x.2) (acc ++ [e]) := by rfl
      _ = (acc ++ [e]) ++ rest := h2
      _ = acc ++ e :: rest := by simp

theorem placeCoins_eq_foldl (perm : List Nat) (coins : List (Cell × Nat)) :
    placeCoins perm coins
      = (coinInsertions perm).foldl (fun cs e => rset cs e.1 e.2) coins := by
  rw [coinInsertions, List.foldl_map]
  rfl

theorem coinInsertions_keys (perm : List Nat) :
    (coinInsertions perm).map (fun e => e.1)
      = (perm.take NUM_COINS).map cellOfIndex := by
  rw [coinInsertions, List.map_map]
  have hcomp : ((fun e : Cell × Nat => e.1) ∘
      (fun e : Nat × Nat => (cellOfIndex e.2, coinValueForSlot e.1)))
      = cellOfIndex ∘ Prod.snd := rfl
  rw [hcomp, ← List.map_map, List.enum_map_snd]

theorem coinInsertions_values (perm : List Nat)
    (hlen : NUM_COINS ≤ perm.length) :
    (coinInsertions perm).map (fun e => e.2)
      = (List.range NUM_COINS).map coinValueForSlot := by
  rw [coinInsertions, List.map_map]
  have hcomp : ((fun e : Cell × Nat => e.2) ∘
      (fun e : Nat × Nat => (cellOfIndex e.2, coinValueForSlot e.1)))
      = coinValueForSlot ∘ Prod.fst := rfl
  rw [hcomp, ← List.map_map, List.enum_map_fst, List.length_take,
    Nat.min_eq_left hlen]

theorem cellOfIndex_injective : Function.Injective cellOfIndex := by
  intro a b h
  rw [cellOfIndex, cellOfIndex, Prod.mk.injEq] at h
  calc a = WIDTH * (a / WIDTH) + a % WIDTH := (Nat.div_add_mod a WIDTH).symm
    _ = WIDTH * (b / WIDTH) + b % WIDTH := by rw [h.1, h.2]
    _ = b := Nat.div_add_mod b WIDTH

theorem coinInsertions_keys_nodup (perm : List Nat) (hnd : perm.Nodup) :
    ((coinInsertions perm).map (fun e => e.1)).Nodup := by
  rw [coinInsertions_keys]
  exact ((List.take_sublist NUM_COINS perm).nodup hnd).map cellOfIndex_injective

theorem coinInsertions_length (perm : List Nat)
    (hlen : NUM_COINS ≤ perm.length) :
    (coinInsertions perm).length = NUM_COINS := by
  rw [coinInsertions, List.length_map, List.enum_length, List.length_take,
    Nat.min_eq_left hlen]

/-- C3 (amended): run on an empty coin set (the only situation the source
ever uses), `placeCoins` with any permutation of `[0, WIDTH*HEIGHT)` leaves
exactly 100 coins, at pairwise distinct cells, the cells being exactly
`(idx / WIDTH, idx % WIDTH)` for the first 100 drawn indices, with value
tiers of 50 coins worth 1, 25 worth 2, 20 worth 5 and 5 worth 10. (The
claim's "regardless of the prior coin set, which it overwrites" is false:
`placeCoins` never clears prior coins; see the counterexample.) -/
theorem placeCoins_fresh_board (perm : List Nat)
    (hp : perm.Perm (List.range (WIDTH * HEIGHT))) :
    (placeCoins perm []).length = NUM_COINS ∧
    ((placeCoins perm []).map (fun e => e.1)).Nodup ∧
    (placeCoins perm []).map (fun e => e.1)
      = (perm.take NUM_COINS).map cellOfIndex ∧
    ((placeCoins perm []).map (fun e => e.2)).count 1 = 50 ∧
    ((placeCoins perm []).map (fun e => e.2)).count 2 = 25 ∧
    ((placeCoins perm []).map (fun e => e.2)).count 5 = 20 ∧
    ((placeCoins perm []).map (fun e => e.2)).count 10 = 5 := by
  have hnd : perm.Nodup := hp.nodup_iff.2 (List.nodup_range _)
  have hlen : NUM_COINS ≤ perm.length := by
    rw [hp.length_eq, List.length_range]
    norm_num [NUM_COINS, WIDTH, HEIGHT]
  have hpc : placeCoins perm [] = coinInsertions perm := by
    rw [placeCoins_eq_foldl]
    have h := foldl_rset_of_nodup_keys (coinInsertions perm) []
      (coinInsertions_keys_nodup perm hnd) (by simp)
    simpa using h
  rw [hpc]
  refine ⟨coinInsertions_length perm hlen,
    coinInsertions_keys_nodup perm hnd, coinInsertions_keys perm, ?_, ?_, ?_, ?_⟩
  all_goals rw [coinInsertions_values perm hlen]
  all_goals decide

theorem placeCoins_fresh_board_witness :
    (List.range (WIDTH * HEIGHT)).Perm (List.range (WIDTH * HEIGHT)) ∧
    (placeCoins (List.range (WIDTH * HEIGHT)) []).length = NUM_COINS ∧
    ((placeCoins (List.range (WIDTH * HEIGHT)) []).map
        (fun e => e.2)).count 10 = 5 :=
  have h := placeCoins_fresh_board (List.range (WIDTH * HEIGHT))
    (List.Perm.refl _)
  ⟨List.Perm.refl _, h.1, h.2.2.2.2.2.2⟩

/-- C3 counterexample: `placeCoins` does not overwrite the prior coin set.
Starting from a single leftover coin at cell `(63,63)` (which the first 100
indices of the identity permutation never hit), the board afterwards holds
101 coins, not exactly 100. -/
theorem placeCoins_prior_coins_counterexample :
    ¬ (placeCoins (List.range (WIDTH * HEIGHT))
        [((63, 63), 1)]).length = NUM_COINS := by
  have hnd : (List.range (WIDTH * HEIGHT)).Nodup := List.nodup_range _
  have hlen : NUM_COINS ≤ (List.range (WIDTH * HEIGHT)).length := by
    rw [List.length_range]
    norm_num [NUM_COINS, WIDTH, HEIGHT]
  have hkeys : (coinInsertions (List.range (WIDTH * HEIGHT))).map (fun e => e.1)
      = (List.range NUM_COINS).map cellOfIndex := by
    rw [coinInsertions_keys, List.take_range]
    norm_num [NUM_COINS, WIDTH, HEIGHT]
  have hdisj : ∀ k, k ∈ (coinInsertions (List.range (WIDTH * HEIGHT))).map
      (fun e => e.1) →
      k ∉ ([((63, 63), 1)] : List (Cell × Nat)).map (fun e => e.1) := by
    rw [hkeys]
    decide
  have hfold := foldl_rset_of_nodup_keys
    (coinInsertions (List.range (WIDTH * HEIGHT))) [((63, 63), 1)]
    (coinInsertions_keys_nodup _ hnd) hdisj
  rw [placeCoins_eq_foldl, hfold, List.length_append,
    coinInsertions_length _ hlen]
  norm_num [NUM_COINS]

/-! ### Registered names versus leaderboard names -/

theorem playersSubsetScores_addPlayer (s : GameState) (now : Nat)
    (name : String) (pt : Cell) (h : PlayersSubsetScores s) :
    PlayersSubsetScores (addPlayer s now name pt).2 := by
  intro n hn
  have hn' : n = name ∨ n ∈ s.players.map (fun e => e.1) :=
    (mem_keys_rset s.players name n (pt, now + 300)).1 hn
  refine (mem_keys_rset s.scores name n 0).2 ?_
  rcases hn' with h1 | h1
  · exact Or.inl h1
  · exact Or.inr (h n h1)

theorem playersSubsetScores_move (s : GameState) (now : Nat)
    (dir name : String) (h : PlayersSubsetScores s) :
    PlayersSubsetScores (move s now dir name).2 := by
  cases hd : delta dir with
  | none => rw [move_unknown_dir s now dir name hd]; exact h
  | some d =>
    cases hp : getLive s.players now name with
    | none => rw [move_unregistered s now dir name d hd hp]; exact h
    | some p =>
      have hmem : name ∈ s.players.map (fun e => e.1) :=
        getLive_some_mem_keys s.players now name p hp
      cases hv : rget s.coins (newPos p d) with
      | some v =>
        rw [move_coin_state s now dir name d p v hd hp hv]
        intro n hn
        have hn' : n = name ∨ n ∈ s.players.map (fun e => e.1) :=
          (mem_keys_rset s.players name n (newPos p d, now + 300)).1 hn
        rcases hn' with h1 | h1
        · exact mem_keys_zincrby s.scores name n (v : Int) (h n (h1 ▸ hmem))
        · exact mem_keys_zincrby s.scores name n (v : Int) (h n h1)
      | none =>
        rw [move_nocoin_state s now dir name d p hd hp hv]
        intro n hn
        have hn' : n = name ∨ n ∈ s.players.map (fun e => e.1) :=
          (mem_keys_rset s.players name n (newPos p d, now + 300)).1 hn
        rcases hn' with h1 | h1
        · exact h n (h1 ▸ hmem)
        · exact h n h1

theorem playersSubsetScores_step (s : GameState) (t : Nat) (a : Intent)
    (h : PlayersSubsetScores s) : PlayersSubsetScores (step s t a) := by
  cases a with
  | addP n pt => exact playersSubsetScores_addPlayer s t n pt h
  | mv d n => exact playersSubsetScores_move s t d n h
  | regen p => exact h

theorem playersSubsetScores_foldl (tr : List (Nat × Intent)) (s : GameState)
    (h : PlayersSubsetScores s) :
    PlayersSubsetScores (tr.foldl (fun s ta => step s ta.1 ta.2) s) := by
  induction tr generalizing s with
  | nil => exact h
  | cons ta rest ih =>
    rw [List.foldl_cons]
    exact ih (step s ta.1 ta.2) (playersSubsetScores_step s ta.1 ta.2 h)

/-- C8 (amended): at every reachable state, the set of currently registered
player names is only a SUBSET of the leaderboard names: every name shown in
`state().positions` is also in `state().scores`. The converse fails: expiry
removes only the `player:<name>` key, so a player inactive beyond the
300-second window disappears from `state().positions` but remains in
`state().scores`, and its name stays in `usednames`, blocking
re-registration (see the counterexample). -/
theorem registered_subset_leaderboard (tr : List (Nat × Intent)) (now : Nat)
    (n : String) (h : n ∈ registeredNames (run tr) now) :
    n ∈ leaderboardNames (run tr) := by
  have hinv : PlayersSubsetScores (run tr) := by
    refine playersSubsetScores_foldl tr GameState.empty ?_
    intro m hm
    simp [GameState.empty] at hm
  have hn : n ∈ (run tr).players.map (fun e => e.1) := by
    simp only [registeredNames, statePositions, List.map_map, List.mem_map,
      Function.comp] at h
    rcases h with ⟨f, hf, hfn⟩
    exact List.mem_map.2 ⟨f, List.mem_of_mem_filter hf, hfn⟩
  exact (mem_leaderboardNames (run tr) n).2 (hinv n hn)

theorem registered_subset_leaderboard_witness :
    "alice" ∈ registeredNames (run [(0, Intent.addP "alice" (1, 2))]) 5 ∧
    "alice" ∈ leaderboardNames (run [(0, Intent.addP "alice" (1, 2))]) :=
  ⟨by decide,
   registered_subset_leaderboard [(0, Intent.addP "alice" (1, 2))] 5 "alice"
     (by decide)⟩

/-- C8 counterexample: after `placeCoins` at boot and a successful
registration of "alice" at time 0, looking at time 301 (inactive longer
than the 300-second window) the registered-name set is empty while the
leaderboard still lists "alice", so the two sets differ; moreover the name
is still in `usednames` and re-registration is rejected rather than the name
becoming available. -/
theorem registered_eq_leaderboard_counterexample :
    ¬ ("alice" ∈ registeredNames
          (run [(0, Intent.regen (List.range (WIDTH * HEIGHT))),
                (0, Intent.addP "alice" (1, 2))]) 301 ↔
        "alice" ∈ leaderboardNames
          (run [(0, Intent.regen (List.range (WIDTH * HEIGHT))),
                (0, Intent.addP "alice" (1, 2))])) ∧
    registeredNames
        (run [(0, Intent.regen (List.range (WIDTH * HEIGHT))),
              (0, Intent.addP "alice" (1, 2))]) 301 = [] ∧
    leaderboardNames
        (run [(0, Intent.regen (List.range (WIDTH * HEIGHT))),
              (0, Intent.addP "alice" (1, 2))]) = ["alice"] ∧
    (addPlayer
        (run [(0, Intent.regen (List.range (WIDTH * HEIGHT))),
              (0, Intent.addP "alice" (1, 2))]) 301 "alice" (5, 5)).1
      = false := by
  have hps : (run [(0, Intent.regen (List.range (WIDTH * HEIGHT))),
      (0, Intent.addP "alice" (1, 2))]).players
      = [("alice", ((1, 2), 300))] := rfl
  have hsc : (run [(0, Intent.regen (List.range (WIDTH * HEIGHT))),
      (0, Intent.addP "alice" (1, 2))]).scores = [("alice", 0)] := rfl
  have hus : (run [(0, Intent.regen (List.range (WIDTH * HEIGHT))),
      (0, Intent.addP "alice" (1, 2))]).usednames = ["alice"] := rfl
  refine ⟨?_, ?_, ?_, ?_⟩
  · intro hiff
    have h2 : "alice" ∈ leaderboardNames
        (run [(0, Intent.regen (List.range (WIDTH * HEIGHT))),
              (0, Intent.addP "alice" (1, 2))]) := by
      rw [mem_leaderboardNames, hsc]; decide
    have h1 := hiff.2 h2
    rw [registeredNames, statePositions, hps] at h1
    revert h1; decide
  · rw [registeredNames, statePositions, hps]
    decide
  · rw [leaderboardNames, stateScores, hsc]
    decide
  · rw [addPlayer]
    simp [hus]
